import Mathlib

/-!
Verification of the audio capture / mixing / chunking engine
(`src-tauri/src/multi_audio.rs`, `src-tauri/src/plugins/audio_capture.rs`,
`src-tauri/src/coordinator.rs`) against its specification.

Audio samples (`f32` in the source) are modelled as rationals `ℚ`: every
operation the claims touch (append, drain, take, averaging, clamping and
scaling to int16) is exact arithmetic on the sample values, and the spec
states the mixing algorithm in exact arithmetic.  Machine `i16` values are
modelled as `ℤ` with the cast semantics made explicit.  Fallible file
operations are modelled with `Except String`.
-/

namespace AudioEngine

/-- A sample value (`f32` in the source). -/
abbrev Sample := ℚ

/-! Section: shared buffer store (`MultiSourceAudioCapture.audio_buffers`)

The Rust `HashMap<String, Vec<f32>>` behind `Arc<Mutex<...>>` is modelled as
an association list from source id to sample buffer. -/

/-- Lookup `buffers.get(source_id)` on the association-list model. -/
def lookupBuffer : List (String × List Sample) → String → Option (List Sample)
  | [], _ => none
  | (k, v) :: rest, sid => if k = sid then some v else lookupBuffer rest sid

/-- Replace the buffer stored under `sid` (used to model in-place mutation
through `buffers.get_mut(source_id)`). -/
def updateBuffer : List (String × List Sample) → String → List Sample →
    List (String × List Sample)
  | [], _, _ => []
  | (k, v) :: rest, sid, newv =>
      if k = sid then (k, newv) :: rest else (k, v) :: updateBuffer rest sid newv

/-- State of `MultiSourceAudioCapture` relevant to the claims: the shared
buffer store, the list of active stream ids, and the `mix_output` config
flag. -/
structure MultiState where
  buffers : List (String × List Sample)
  activeStreams : List String
  mixOutput : Bool
deriving Repr, DecidableEq

/-- Model of `MultiSourceAudioCapture::get_source_audio` (multi_audio.rs:630-640):
```
if let Some(buffer) = buffers.get_mut(source_id) {
    let samples_to_take = max_samples.map(|max| max.min(buffer.len())).unwrap_or(buffer.len());
    let result = buffer.drain(0..samples_to_take).collect();
    result
} else { Vec::new() }
```
Returns the drained samples together with the post-state.  The Rust
function returns a plain `Vec<f32>` — there is no error path. -/
def get_source_audio (st : MultiState) (sid : String) (maxSamples : Option Nat) :
    List Sample × MultiState :=
  match lookupBuffer st.buffers sid with
  | some buf =>
      let samplesToTake :=
        match maxSamples with
        | some m => min m buf.length
        | none => buf.length
      (buf.take samplesToTake,
       { st with buffers := updateBuffer st.buffers sid (buf.drop samplesToTake) })
  | none => ([], st)

/-- Model of `AudioCapture::get_audio_data_chunk` (audio.rs:358-362):
```
let chunk_size = std::cmp::min(max_samples, buffer.len());
Ok(buffer.drain(0..chunk_size).collect())
```
Modelled on the single buffer it drains; result is
(returned samples, remaining buffer).  The `Result` in the signature can
only be `Ok` — the body has no error path. -/
def get_audio_data_chunk (buffer : List Sample) (maxSamples : Nat) :
    List Sample × List Sample :=
  let chunkSize := min maxSamples buffer.length
  (buffer.take chunkSize, buffer.drop chunkSize)

/-! Basic lemmas about the buffer store. -/

theorem lookup_update_self (bufs : List (String × List Sample)) (sid : String)
    (v : List Sample) (buf : List Sample) (h : lookupBuffer bufs sid = some buf) :
    lookupBuffer (updateBuffer bufs sid v) sid = some v := by
  induction bufs with
  | nil => simp [lookupBuffer] at h
  | cons p rest ih =>
    obtain ⟨k, w⟩ := p
    by_cases hk : k = sid
    · simp [lookupBuffer, updateBuffer, hk]
    · simp [lookupBuffer, updateBuffer, hk] at h ⊢
      exact ih h

theorem lookup_update_other (bufs : List (String × List Sample)) (sid sid' : String)
    (v : List Sample) (hne : sid' ≠ sid) :
    lookupBuffer (updateBuffer bufs sid v) sid' = lookupBuffer bufs sid' := by
  induction bufs with
  | nil => simp [updateBuffer]
  | cons p rest ih =>
    obtain ⟨k, w⟩ := p
    by_cases hk : k = sid
    · subst hk
      simp [lookupBuffer, updateBuffer, Ne.symm hne]
    · by_cases hk' : k = sid'
      · simp [lookupBuffer, updateBuffer, hk, hk', hne]
      · simp [lookupBuffer, updateBuffer, hk, hk', ih]

/-- C8 — Draining more samples than available returns exactly the available
samples in FIFO order and leaves the buffer empty; this holds both for
`MultiSourceAudioCapture::get_source_audio` and for
`AudioCapture::get_audio_data_chunk`.  Neither function has an error
path (both bodies only compute `min` and `drain`). -/
theorem drain_over_request (st : MultiState) (sid : String) (buf : List Sample)
    (n : Nat) (hbuf : lookupBuffer st.buffers sid = some buf) (hn : buf.length < n) :
    (get_source_audio st sid (some n)).1 = buf ∧
    lookupBuffer (get_source_audio st sid (some n)).2.buffers sid = some [] ∧
    (∀ sid', sid' ≠ sid →
      lookupBuffer (get_source_audio st sid (some n)).2.buffers sid' =
        lookupBuffer st.buffers sid') ∧
    (∀ (b : List Sample) (m : Nat), b.length < m →
      get_audio_data_chunk b m = (b, [])) := by
  have hmin : min n buf.length = buf.length := Nat.min_eq_right (Nat.le_of_lt hn)
  refine ⟨?_, ?_, ?_, ?_⟩
  · simp [get_source_audio, hbuf, hmin]
  · simp only [get_source_audio, hbuf, hmin]
    have := lookup_update_self st.buffers sid (buf.drop buf.length) buf hbuf
    simpa using this
  · intro sid' hne
    simp only [get_source_audio, hbuf, hmin]
    exact lookup_update_other st.buffers sid sid' _ hne
  · intro b m hm
    have : min m b.length = b.length := Nat.min_eq_right (Nat.le_of_lt hm)
    simp [get_audio_data_chunk, this]

/-- Witness for C8 at a concrete input: a buffer of two samples drained with
`max_samples = 5`. -/
theorem drain_over_request_witness :
    (get_source_audio ⟨[("mic_0", [1, 2])], ["mic_0"], true⟩ "mic_0" (some 5)).1
      = [1, 2] ∧
    lookupBuffer
      (get_source_audio ⟨[("mic_0", [1, 2])], ["mic_0"], true⟩ "mic_0"
        (some 5)).2.buffers "mic_0" = some [] := by
  have h := drain_over_request ⟨[("mic_0", [1, 2])], ["mic_0"], true⟩ "mic_0"
    [1, 2] 5 (by simp [lookupBuffer]) (by simp)
  exact ⟨h.1, h.2.1⟩

/-- C10 — Requesting audio for a source id with no buffer entry returns the
empty vector and leaves the whole state (hence every existing buffer)
unchanged. -/
theorem unknown_source_noop (st : MultiState) (sid : String)
    (maxSamples : Option Nat) (h : lookupBuffer st.buffers sid = none) :
    get_source_audio st sid maxSamples = ([], st) := by
  simp [get_source_audio, h]

/-- Witness for C10 at a concrete input: a store holding only `"mic_0"`
queried for the unknown id `"ghost"`. -/
theorem unknown_source_noop_witness :
    get_source_audio ⟨[("mic_0", [1, 2])], ["mic_0"], true⟩ "ghost" (some 3)
      = ([], ⟨[("mic_0", [1, 2])], ["mic_0"], true⟩) :=
  unknown_source_noop ⟨[("mic_0", [1, 2])], ["mic_0"], true⟩ "ghost" (some 3)
    (by simp [lookupBuffer])

/-! Section: mixer (`MultiSourceAudioCapture::mix_audio_sources`, multi_audio.rs:593-627)

The Rust loop
```
for (i, sample) in buffer.iter().take(samples_to_mix).enumerate() {
    mixed[i] += sample / num_sources;
}
```
adds `buffer[i] / num_sources` into `mixed[i]` for every `i` below both
`samples_to_mix` and the buffer's length.  `addInto` walks `mixed`
(which always has length `samples_to_mix`) adding the matching element of
`buf`; once `buf` is exhausted `headD 0` contributes `0 / num = 0`,
exactly like the Rust loop stopping early. -/
def addInto : List Sample → List Sample → Sample → List Sample
  | [], _, _ => []
  | v :: vs, buf, num => (v + buf.headD 0 / num) :: addInto vs buf.tail num

/-- Model of `MultiSourceAudioCapture::mix_audio_sources` (multi_audio.rs:593-627).
Reads the buffer store under the lock; note that it never drains — the
buffers are only read.  The returned list is the mixed window. -/
def mix_audio_sources (st : MultiState) (maxSamples : Option Nat) : List Sample :=
  if st.activeStreams.isEmpty then []
  else
    let minLength :=
      ((st.activeStreams.filterMap (lookupBuffer st.buffers)).map List.length).min?.getD 0
    let samplesToMix :=
      match maxSamples with
      | some m => min m minLength
      | none => minLength
    if samplesToMix = 0 then []
    else
      let numSources : Sample := (st.activeStreams.length : ℚ)
      st.activeStreams.foldl
        (fun mixed sid =>
          match lookupBuffer st.buffers sid with
          | some buf => addInto mixed (buf.take samplesToMix) numSources
          | none => mixed)
        (List.replicate samplesToMix 0)

/-- Model of `MultiSourceAudioCapture::get_mixed_audio` (multi_audio.rs:583-590).
When `mix_output` is set it returns `mix_audio_sources`; the state is
returned unchanged because the Rust body takes the buffer lock read-only
and performs no drain. -/
def get_mixed_audio (st : MultiState) (maxSamples : Option Nat) :
    List Sample × MultiState :=
  if st.mixOutput then (mix_audio_sources st maxSamples, st) else ([], st)

/-- Concrete two-source state used to evaluate the mixer: both sources hold
one buffered sample. -/
def twoSourceState : MultiState :=
  ⟨[("mic_0", [1]), ("system_audio_pulse", [3])], ["mic_0", "system_audio_pulse"], true⟩

/-- C2 — evaluation at the failing input.  With two active sources each
holding one sample, `get_mixed_audio` mixes `N = 1` sample (the average
`(1 + 3) / 2 = 2`) yet returns the state unchanged: both source buffers
still hold their sample (length 1, not length 0).  The scheduler's next
poll would mix the same samples again — the drain the claim requires
does not happen anywhere in `mix_audio_sources` / `get_mixed_audio`. -/
theorem mixer_does_not_drain :
    (get_mixed_audio twoSourceState none).1 = [2] ∧
    (get_mixed_audio twoSourceState none).2 = twoSourceState ∧
    lookupBuffer (get_mixed_audio twoSourceState none).2.buffers "mic_0"
      = some [1] ∧
    lookupBuffer (get_mixed_audio twoSourceState none).2.buffers
      "system_audio_pulse" = some [3] := by
  refine ⟨?_, rfl, rfl, rfl⟩
  show mix_audio_sources twoSourceState none = [2]
  simp [mix_audio_sources, twoSourceState, lookupBuffer, List.min?, addInto]
  norm_num

/-! Helper lemmas for the mixing formula. -/

theorem addInto_length (m b : List Sample) (num : Sample) :
    (addInto m b num).length = m.length := by
  induction m generalizing b with
  | nil => rfl
  | cons v vs ih => simp [addInto, ih]

theorem getD_zero_eq_headD (b : List Sample) : b.getD 0 0 = b.headD 0 := by
  cases b <;> rfl

theorem getD_succ_eq_tail_getD (b : List Sample) (i : Nat) :
    b.getD (i + 1) 0 = b.tail.getD i 0 := by
  cases b <;> rfl

theorem addInto_getD (m b : List Sample) (num : Sample) (i : Nat)
    (hi : i < m.length) :
    (addInto m b num).getD i 0 = m.getD i 0 + b.getD i 0 / num := by
  induction m generalizing b i with
  | nil => simp at hi
  | cons v vs ih =>
    cases i with
    | zero => cases b <;> simp [addInto]
    | succ j =>
      have hj : j < vs.length := by simpa using hi
      simp only [addInto, List.getD_cons_succ]
      rw [ih _ j hj, getD_succ_eq_tail_getD]

theorem getD_take (l : List Sample) (n i : Nat) (h : i < n) :
    (l.take n).getD i 0 = l.getD i 0 := by
  induction l generalizing n i with
  | nil => simp
  | cons x xs ih =>
    cases n with
    | zero => omega
    | succ m =>
      cases i with
      | zero => rfl
      | succ j => simp only [List.take_succ_cons, List.getD_cons_succ]; exact ih m j (by omega)

theorem getD_replicate_zero (k i : Nat) :
    (List.replicate k (0 : Sample)).getD i 0 = 0 := by
  induction k generalizing i with
  | zero => simp
  | succ m ih =>
    cases i with
    | zero => rfl
    | succ j => simp [List.replicate]

/-- One pass of the mixing fold preserves the length of the accumulator. -/
theorem mixFold_length (bufs : List (String × List Sample)) (n : Nat)
    (num : Sample) (l : List String) (init : List Sample) :
    (l.foldl
      (fun mixed sid =>
        match lookupBuffer bufs sid with
        | some buf => addInto mixed (buf.take n) num
        | none => mixed) init).length = init.length := by
  induction l generalizing init with
  | nil => rfl
  | cons a l ih =>
    rw [List.foldl_cons, ih]
    cases h : lookupBuffer bufs a <;> simp [addInto_length]

/-- Value of the mixing fold: every position accumulates the sum of the
per-source contributions divided by `num`. -/
theorem mixFold_getD (bufs : List (String × List Sample)) (n : Nat)
    (num : Sample) (l : List String) (init : List Sample) (i : Nat)
    (hi : i < init.length) :
    (l.foldl
      (fun mixed sid =>
        match lookupBuffer bufs sid with
        | some buf => addInto mixed (buf.take n) num
        | none => mixed) init).getD i 0 =
    init.getD i 0 +
      (l.map (fun sid =>
        (((lookupBuffer bufs sid).getD []).take n).getD i 0)).sum / num := by
  induction l generalizing init with
  | nil => simp
  | cons a l ih =>
    rw [List.foldl_cons]
    have hstep : ∀ next : List Sample, next.length = init.length →
        (l.foldl
          (fun mixed sid =>
            match lookupBuffer bufs sid with
            | some buf => addInto mixed (buf.take n) num
            | none => mixed) next).getD i 0 =
        next.getD i 0 +
          (l.map (fun sid =>
            (((lookupBuffer bufs sid).getD []).take n).getD i 0)).sum / num := by
      intro next hlen
      exact ih next (hlen ▸ hi)
    cases h : lookupBuffer bufs a with
    | none =>
      simp only [h]
      rw [hstep init rfl]
      simp [h, add_div]
    | some buf =>
      simp only [h]
      rw [hstep (addInto init (buf.take n) num) (addInto_length _ _ _)]
      rw [addInto_getD init (buf.take n) num i hi]
      simp [h, add_div, add_assoc]

theorem filterMap_lookup_eq_map (bufs : List (String × List Sample))
    (l : List String) (h : ∀ sid ∈ l, (lookupBuffer bufs sid).isSome) :
    l.filterMap (lookupBuffer bufs) =
      l.map (fun sid => (lookupBuffer bufs sid).getD []) := by
  induction l with
  | nil => rfl
  | cons a l ih =>
    have ha : (lookupBuffer bufs a).isSome := h a (List.mem_cons_self a l)
    obtain ⟨v, hv⟩ := Option.isSome_iff_exists.mp ha
    simp only [List.filterMap_cons, List.map_cons, hv, Option.getD_some]
    exact congrArg (v :: ·) (ih fun sid hs => h sid (List.mem_cons_of_mem a hs))

/-- C6 — For a non-empty set of active sources whose ids all have buffers,
`mix_audio_sources` returns exactly `N = min (min over sources of buffer
length) max_samples` samples (empty when `N = 0`), the `i`-th output being
the arithmetic mean `(sum over sources of buffer[s][i]) / count`; with a
single active source the output is that source's first `N` samples
unchanged, and two constant equal-length buffers of values `a` and `b` mix
to the constant `(a + b) / 2`. -/
theorem mix_formula (st : MultiState) (maxSamples : Option Nat) (L N : Nat)
    (hne : st.activeStreams ≠ [])
    (hbuf : ∀ sid ∈ st.activeStreams, (lookupBuffer st.buffers sid).isSome)
    (hL : L = ((st.activeStreams.map
        (fun sid => ((lookupBuffer st.buffers sid).getD []).length)).min?).getD 0)
    (hN : N = (match maxSamples with | some m => min m L | none => L)) :
    (mix_audio_sources st maxSamples).length = N ∧
    (N = 0 → mix_audio_sources st maxSamples = []) ∧
    (∀ i, i < N → (mix_audio_sources st maxSamples).getD i 0 =
      (st.activeStreams.map
        (fun sid => ((lookupBuffer st.buffers sid).getD []).getD i 0)).sum /
        (st.activeStreams.length : ℚ)) ∧
    (∀ sid buf, st.activeStreams = [sid] →
      lookupBuffer st.buffers sid = some buf →
      mix_audio_sources st maxSamples = buf.take N) ∧
    (∀ (a b : Sample) (k : Nat) (s1 s2 : String), st.activeStreams = [s1, s2] →
      lookupBuffer st.buffers s1 = some (List.replicate k a) →
      lookupBuffer st.buffers s2 = some (List.replicate k b) →
      mix_audio_sources st maxSamples = List.replicate N ((a + b) / 2)) := by
  have hempty : st.activeStreams.isEmpty = false := by
    cases hs : st.activeStreams with
    | nil => exact absurd hs hne
    | cons a l => rfl
  have hmin : ((st.activeStreams.filterMap
      (lookupBuffer st.buffers)).map List.length).min?.getD 0 = L := by
    rw [filterMap_lookup_eq_map st.buffers st.activeStreams hbuf, List.map_map,
      hL]
    rfl
  have hmix : mix_audio_sources st maxSamples =
      (if N = 0 then []
       else st.activeStreams.foldl
         (fun mixed sid =>
           match lookupBuffer st.buffers sid with
           | some buf => addInto mixed (buf.take N) ((st.activeStreams.length : ℚ))
           | none => mixed)
         (List.replicate N 0)) := by
    cases maxSamples with
    | none =>
      simp only [mix_audio_sources, hempty, Bool.false_eq_true, if_false, hmin]
      rw [hN]
    | some m =>
      simp only [mix_audio_sources, hempty, Bool.false_eq_true, if_false, hmin]
      rw [hN]
  have hlen : (mix_audio_sources st maxSamples).length = N := by
    rw [hmix]
    by_cases h0 : N = 0
    · simp [h0]
    · rw [if_neg h0, mixFold_length, List.length_replicate]
  have hval : ∀ i, i < N → (mix_audio_sources st maxSamples).getD i 0 =
      (st.activeStreams.map
        (fun sid => ((lookupBuffer st.buffers sid).getD []).getD i 0)).sum /
        (st.activeStreams.length : ℚ) := by
    intro i hi
    have h0 : ¬ N = 0 := by omega
    rw [hmix, if_neg h0,
      mixFold_getD st.buffers N _ st.activeStreams (List.replicate N 0) i
        (by simpa using hi),
      getD_replicate_zero, zero_add]
    congr 1
    rw [List.map_congr_left
      (fun sid _ => getD_take ((lookupBuffer st.buffers sid).getD []) N i hi)]
  have hNleL : N ≤ L := by
    cases maxSamples with
    | none => rw [hN]
    | some m => rw [hN]; exact min_le_right m L
  refine ⟨hlen, ?_, hval, ?_, ?_⟩
  · intro h0
    rw [hmix, if_pos h0]
  · -- single active source: output is the first N samples, unchanged
    intro sid buf hs hb
    have hLbuf : L = buf.length := by
      rw [hL, hs]
      simp [hb, List.min?]
    have hNle : N ≤ buf.length := hLbuf ▸ hNleL
    have htl : (buf.take N).length = N := by
      rw [List.length_take]
      omega
    apply List.ext_getElem (by rw [hlen, htl])
    intro i h1 h2
    have hiN : i < N := by rwa [hlen] at h1
    rw [← List.getD_eq_getElem (mix_audio_sources st maxSamples) 0 h1,
      ← List.getD_eq_getElem (buf.take N) 0 h2, hval i hiN, hs,
      getD_take buf N i hiN]
    simp [hb]
  · -- two constant equal-length buffers mix to the constant average
    intro a b k s1 s2 hs h1 h2
    have hLk : L = k := by
      rw [hL, hs]
      simp [h1, h2, List.min?]
    have hNk : N ≤ k := hLk ▸ hNleL
    apply List.ext_getElem (by rw [hlen, List.length_replicate])
    intro i hi1 hi2
    have hiN : i < N := by rwa [hlen] at hi1
    have hik : i < k := by omega
    have hra : (List.replicate k a).getD i 0 = a := by
      rw [List.getD_eq_getElem _ 0 (by simpa using hik)]
      simp
    have hrb : (List.replicate k b).getD i 0 = b := by
      rw [List.getD_eq_getElem _ 0 (by simpa using hik)]
      simp
    rw [← List.getD_eq_getElem (mix_audio_sources st maxSamples) 0 hi1,
      hval i hiN, hs]
    simp only [List.map_cons, List.map_nil, h1, h2, Option.getD_some,
      List.sum_cons, List.sum_nil, add_zero, List.length_cons, List.length_nil]
    rw [hra, hrb, List.getElem_replicate]
    norm_num

/-- Witness for C6 at a concrete input: the two-source state with constant
one-sample buffers `[1]` and `[3]` mixes to `[(1 + 3) / 2]`. -/
theorem mix_formula_witness :
    mix_audio_sources twoSourceState none = List.replicate 1 ((1 + 3) / 2) :=
  (mix_formula twoSourceState none 1 1 (by decide) (by decide) rfl rfl).2.2.2.2
    1 3 1 "mic_0" "system_audio_pulse" rfl rfl rfl

/-! Section: chunk scheduler (`AudioChunker::start_session`'s spawned loop,
audio_capture.rs:129-202)

Each poll of the loop is one `schedStep`: `newSamples` is what
`get_mixed_audio` / `get_source_audio` returned for this poll (polling
jitter appears as the arbitrary split of the sample stream across polls)
and `writeOk` tells whether `write_wav_chunk` succeeded.  Per the code,
at most one chunk is cut per poll, the window is `drain(0..target_samples)`
(executed before the write, so a failed write still consumes the window
and the incremented index), and the event metadata is computed from the
post-increment `index`. -/

/-- The payload of the `audio:chunk` event (`ChunkEvent` fields the claims
are about). -/
structure ChunkEvent where
  index : Nat
  start_ms : Nat
  end_ms : Nat
  duration_ms : Nat
deriving Repr, DecidableEq

/-- Scheduler-loop state: the accumulation buffer, the loop-local `index`,
the chunk files successfully written so far (index, samples) and the
chunk-completed events emitted so far. -/
structure SchedState where
  accumulated : List Sample
  index : Nat
  files : List (Nat × List Sample)
  events : List ChunkEvent
deriving Repr, DecidableEq

def SchedState.init : SchedState := ⟨[], 0, [], []⟩

/-- One iteration of the scheduler loop body (audio_capture.rs:133-201). -/
def schedStep (sampleRate chunkSecs : Nat) (st : SchedState)
    (newSamples : List Sample) (writeOk : Bool) : SchedState :=
  let targetSamples := sampleRate * chunkSecs
  if newSamples.isEmpty then st
  else
    let acc := st.accumulated ++ newSamples
    if targetSamples ≤ acc.length then
      let chunk := acc.take targetSamples
      let rest := acc.drop targetSamples
      let idx := st.index + 1
      if writeOk then
        { accumulated := rest, index := idx,
          files := st.files ++ [(idx, chunk)],
          events := st.events ++
            [⟨idx, (idx - 1) * (chunkSecs * 1000), idx * (chunkSecs * 1000),
              chunkSecs * 1000⟩] }
      else
        { accumulated := rest, index := idx, files := st.files,
          events := st.events }
    else { st with accumulated := acc }

/-- A whole run of the scheduler loop over a list of polls. -/
def runSched (sampleRate chunkSecs : Nat) :
    SchedState → List (List Sample × Bool) → SchedState
  | st, [] => st
  | st, (ns, ok) :: rest =>
      runSched sampleRate chunkSecs (schedStep sampleRate chunkSecs st ns ok) rest

/-! Invariant preservation for the scheduler. -/

theorem schedStep_files_length (r d : Nat) (st : SchedState)
    (ns : List Sample) (ok : Bool)
    (h : ∀ p ∈ st.files, (p.2 : List Sample).length = r * d) :
    ∀ p ∈ (schedStep r d st ns ok).files, p.2.length = r * d := by
  unfold schedStep
  by_cases h1 : ns.isEmpty = true
  · simp only [if_pos h1]
    exact h
  · simp only [if_neg h1]
    by_cases h2 : r * d ≤ (st.accumulated ++ ns).length
    · simp only [if_pos h2]
      by_cases h3 : ok = true
      · simp only [if_pos h3]
        intro p hp
        simp only [List.mem_append, List.mem_singleton] at hp
        rcases hp with hp | hp
        · exact h p hp
        · subst hp
          simp only [List.length_take]
          omega
      · simp only [if_neg h3]
        exact h
    · simp only [if_neg h2]
      exact h

theorem runSched_files_length (r d : Nat) (st : SchedState)
    (inputs : List (List Sample × Bool))
    (h : ∀ p ∈ st.files, (p.2 : List Sample).length = r * d) :
    ∀ p ∈ (runSched r d st inputs).files, p.2.length = r * d := by
  induction inputs generalizing st with
  | nil => exact h
  | cons a rest ih =>
    exact ih _ (schedStep_files_length r d st a.1 a.2 h)

/-- Metadata relations every emitted event satisfies. -/
def eventOk (d : Nat) (e : ChunkEvent) : Prop :=
  e.end_ms - e.start_ms = e.duration_ms ∧ e.duration_ms = d * 1000 ∧
    e.index * e.duration_ms = e.end_ms

theorem schedStep_events_ok (r d : Nat) (st : SchedState)
    (ns : List Sample) (ok : Bool)
    (h : ∀ e ∈ st.events, eventOk d e) :
    ∀ e ∈ (schedStep r d st ns ok).events, eventOk d e := by
  unfold schedStep
  by_cases h1 : ns.isEmpty = true
  · simp only [if_pos h1]
    exact h
  · simp only [if_neg h1]
    by_cases h2 : r * d ≤ (st.accumulated ++ ns).length
    · simp only [if_pos h2]
      by_cases h3 : ok = true
      · simp only [if_pos h3]
        intro e he
        simp only [List.mem_append, List.mem_singleton] at he
        rcases he with he | he
        · exact h e he
        · subst he
          refine ⟨?_, rfl, rfl⟩
          simp only [Nat.add_sub_cancel, Nat.succ_mul]
          omega
      · simp only [if_neg h3]
        exact h
    · simp only [if_neg h2]
      exact h

theorem runSched_events_ok (r d : Nat) (st : SchedState)
    (inputs : List (List Sample × Bool))
    (h : ∀ e ∈ st.events, eventOk d e) :
    ∀ e ∈ (runSched r d st inputs).events, eventOk d e := by
  induction inputs generalizing st with
  | nil => exact h
  | cons a rest ih =>
    exact ih _ (schedStep_events_ok r d st a.1 a.2 h)

/-- C5 — Chunk geometry.  In every run of the scheduler from a fresh
session: (1) every successfully written chunk file holds exactly
`r * d` samples; (2) every emitted event satisfies
`end_ms - start_ms = duration_ms`, `duration_ms = d * 1000` and
`index * duration_ms = end_ms`; (3) each completed chunk is cut from the
front of the accumulation buffer — the window is
`(accumulated ++ new).take (r * d)` and the leftover
`(accumulated ++ new).drop (r * d)` remains for the next chunk. -/
theorem chunk_geometry (r d : Nat) (inputs : List (List Sample × Bool)) :
    (∀ p ∈ (runSched r d SchedState.init inputs).files,
      (p.2 : List Sample).length = r * d) ∧
    (∀ e ∈ (runSched r d SchedState.init inputs).events,
      e.end_ms - e.start_ms = e.duration_ms ∧ e.duration_ms = d * 1000 ∧
        e.index * e.duration_ms = e.end_ms) ∧
    (∀ (st : SchedState) (ns : List Sample) (ok : Bool),
      ns ≠ [] → r * d ≤ (st.accumulated ++ ns).length →
      (schedStep r d st ns ok).accumulated =
        (st.accumulated ++ ns).drop (r * d) ∧
      (ok = true → (schedStep r d st ns ok).files =
        st.files ++ [(st.index + 1, (st.accumulated ++ ns).take (r * d))])) := by
  refine ⟨runSched_files_length r d SchedState.init inputs (by simp [SchedState.init]),
    ?_, ?_⟩
  · intro e he
    exact runSched_events_ok r d SchedState.init inputs
      (by simp [SchedState.init, eventOk]) e he
  · intro st ns ok hns hlen
    have hne : ns.isEmpty = false := by
      cases ns with
      | nil => exact absurd rfl hns
      | cons a l => rfl
    constructor
    · unfold schedStep
      simp only [hne, Bool.false_eq_true, if_false, if_pos hlen]
      split <;> rfl
    · intro hok
      subst hok
      unfold schedStep
      simp only [hne, Bool.false_eq_true, if_false, if_pos hlen]
      simp

/-- Witness for C5 at a concrete input: rate 2, one-second chunks, one poll
delivering three samples with a successful write. -/
theorem chunk_geometry_witness :
    (schedStep 2 1 SchedState.init [1, 2, 3] true).accumulated = [3] ∧
    (schedStep 2 1 SchedState.init [1, 2, 3] true).files = [(1, [1, 2])] := by
  have h := (chunk_geometry 2 1 [([1, 2, 3], true)]).2.2 SchedState.init
    [1, 2, 3] true (by simp) (by simp [SchedState.init])
  refine ⟨?_, ?_⟩
  · rw [h.1]
    simp [SchedState.init]
  · rw [h.2 rfl]
    simp [SchedState.init]

/-! Chunk indices (claim C3). -/

theorem schedStep_indices (r d : Nat) (st : SchedState) (ns : List Sample)
    (h1 : st.events.map ChunkEvent.index = List.range' 1 st.events.length)
    (h2 : st.index = st.events.length) :
    (schedStep r d st ns true).events.map ChunkEvent.index =
      List.range' 1 (schedStep r d st ns true).events.length ∧
    (schedStep r d st ns true).index =
      (schedStep r d st ns true).events.length := by
  unfold schedStep
  by_cases hb : ns.isEmpty = true
  · simp only [if_pos hb]
    exact ⟨h1, h2⟩
  · simp only [if_neg hb]
    by_cases hl : r * d ≤ (st.accumulated ++ ns).length
    · simp only [if_pos hl, eq_self_iff_true, if_true]
      constructor
      · simp only [List.map_append, List.map_cons, List.map_nil,
          List.length_append, List.length_cons, List.length_nil, h1, h2]
        have hr := @List.range'_concat 1 1 st.events.length
        simp only [one_mul] at hr
        rw [show st.events.length + (0 + 1) = st.events.length + 1 by omega, hr,
          Nat.add_comm 1 st.events.length]
      · simp [h2]
    · simp only [if_neg hl]
      exact ⟨h1, h2⟩

theorem runSched_indices (r d : Nat) (st : SchedState)
    (inputs : List (List Sample × Bool))
    (hok : ∀ p ∈ inputs, p.2 = true)
    (h1 : st.events.map ChunkEvent.index = List.range' 1 st.events.length)
    (h2 : st.index = st.events.length) :
    (runSched r d st inputs).events.map ChunkEvent.index =
      List.range' 1 (runSched r d st inputs).events.length ∧
    (runSched r d st inputs).index = (runSched r d st inputs).events.length := by
  induction inputs generalizing st with
  | nil => exact ⟨h1, h2⟩
  | cons a rest ih =>
    have ha : a.2 = true := hok a (List.mem_cons_self a rest)
    have hstep := schedStep_indices r d st a.1 h1 h2
    have : runSched r d st (a :: rest) =
        runSched r d (schedStep r d st a.1 a.2) rest := by
      cases a
      rfl
    rw [this, ha]
    exact ih (schedStep r d st a.1 true)
      (fun p hp => hok p (List.mem_cons_of_mem a hp)) hstep.1 hstep.2

/-- C3 (amended) — When every encoder write succeeds, the indices of the
completed chunks of one session form exactly the sequence `1, 2, 3, …`
with no gaps, regardless of how polling jitter splits the incoming
samples across polls.  (A failed write still consumes its index — see the
counterexample — so the unqualified claim is false.) -/
theorem scheduler_indices_gap_free (r d : Nat)
    (inputs : List (List Sample × Bool))
    (hok : ∀ p ∈ inputs, p.2 = true) :
    (runSched r d SchedState.init inputs).events.map ChunkEvent.index =
      List.range' 1 (runSched r d SchedState.init inputs).events.length := by
  exact (runSched_indices r d SchedState.init inputs hok (by rfl) (by rfl)).1

/-- Counterexample to C3 as stated: with `r = d = 1` and three polls of one
sample each in which the second write fails, the completed chunks carry
indices `[1, 3]` — not the gap-free `[1, 2] = range' 1 2` the claim
demands even under write failures. -/
theorem scheduler_indices_counterexample :
    (runSched 1 1 SchedState.init
        [([1], true), ([1], false), ([1], true)]).events.map ChunkEvent.index
      = [1, 3] ∧
    ¬ ((runSched 1 1 SchedState.init
        [([1], true), ([1], false), ([1], true)]).events.map ChunkEvent.index
      = List.range' 1 (runSched 1 1 SchedState.init
        [([1], true), ([1], false), ([1], true)]).events.length) := by
  constructor
  · simp [runSched, schedStep, SchedState.init]
  · intro hcontra
    rw [show (runSched 1 1 SchedState.init
        [([1], true), ([1], false), ([1], true)]).events.map ChunkEvent.index
      = [1, 3] by simp [runSched, schedStep, SchedState.init]] at hcontra
    rw [show (runSched 1 1 SchedState.init
        [([1], true), ([1], false), ([1], true)]).events.length = 2 by
      simp [runSched, schedStep, SchedState.init]] at hcontra
    simp [List.range'] at hcontra

/-- Witness for C3 (amended) at a concrete input: two polls, both writes
succeed, indices are `[1, 2]`. -/
theorem scheduler_indices_gap_free_witness :
    (runSched 1 1 SchedState.init [([1], true), ([1], true)]).events.map
      ChunkEvent.index =
    List.range' 1 (runSched 1 1 SchedState.init
      [([1], true), ([1], true)]).events.length :=
  scheduler_indices_gap_free 1 1 [([1], true), ([1], true)] (by simp)

/-! Section: session lifecycle (`AudioChunker`, audio_capture.rs:22-210)

`start_session` spawns the scheduler loop with `tokio::spawn` and drops the
`JoinHandle`; the loop body is an unconditional `loop \x7b ... \x7d` with no
cancellation token, exit condition or `break`, so no later operation can
stop it.  `stop_all` resets the chunker fields and calls
`capture.stop_recording` (which only flips `is_recording` and clears
`active_streams`; the cpal streams themselves were leaked with
`std::mem::forget`), but it has no handle to the spawned task.
`spawnedTasks` records the `session_dir` captured by each spawned loop;
faithfully to the code, nothing ever removes an entry. -/

structure ChunkerState where
  sessionId : Option String
  sessionDir : Option String
  activeSources : List String
  captureRecording : Bool
  chunkIndex : Nat
  spawnedTasks : List String
deriving Repr, DecidableEq

def ChunkerState.initial : ChunkerState := ⟨none, none, [], false, 0, []⟩

/-- Model of `AudioChunker::stop_all` (audio_capture.rs:97-106): stops the capture
flag and clears the session fields.  It does not (and cannot) cancel the
spawned scheduler loop. -/
def stop_all (st : ChunkerState) : ChunkerState :=
  { st with
    captureRecording := false
    activeSources := []
    sessionId := none
    sessionDir := none
    chunkIndex := 0 }

/-- Directory layout `<app-data-root>/recordings/<session_id>`
(audio_capture.rs:212-219, root elided). -/
def sessionDirFor (sessionId : String) : String :=
  "recordings/" ++ sessionId

/-- Zero-padded `format!("chunk_{:04}.wav", index)` naming
(audio_capture.rs:150). -/
def pad4 (n : Nat) : String :=
  let s := toString n
  String.mk (List.replicate (4 - s.length) '0') ++ s

def chunkFilePath (sessionDir : String) (idx : Nat) : String :=
  sessionDir ++ "/chunk_" ++ pad4 idx ++ ".wav"

/-- Model of `AudioChunker::start_session` (audio_capture.rs:108-210): first
`stop_all`, then allocate the session directory, restart the capture, spawn
a new scheduler loop over that directory and record the new session
fields. -/
def start_session (st : ChunkerState) (sessionId : String)
    (sourceIds : List String) : ChunkerState :=
  let st1 := stop_all st
  let dir := sessionDirFor sessionId
  { st1 with
    sessionId := some sessionId
    sessionDir := some dir
    activeSources := sourceIds
    captureRecording := true
    spawnedTasks := st1.spawnedTasks ++ [dir] }

/-- C1 — evaluation at the failing input `start(A); start(B)`.  After the
second start, the scheduler loop spawned for session `A` is still alive
(`stop_all` never cancels it: the spawn handle is dropped and the loop has
no exit condition), alongside `B`'s loop.  The stale `A` loop polls the
same shared capture, and a poll that completes a chunk writes the file
under `A`'s directory (`recordings/A/chunk_0001.wav`) — so chunk files can
land outside `B`'s directory, contradicting the claim that `A`'s scheduler
task is cancelled and only `B`'s directory receives chunks. -/
theorem stale_scheduler_survives_restart :
    (start_session (start_session ChunkerState.initial "A" ["mic_0"]) "B"
      ["mic_0"]).spawnedTasks = [sessionDirFor "A", sessionDirFor "B"] ∧
    (start_session (start_session ChunkerState.initial "A" ["mic_0"]) "B"
      ["mic_0"]).sessionDir = some (sessionDirFor "B") ∧
    sessionDirFor "A" ∈
      (start_session (start_session ChunkerState.initial "A" ["mic_0"]) "B"
        ["mic_0"]).spawnedTasks ∧
    chunkFilePath (sessionDirFor "A") 1 = "recordings/A/chunk_0001.wav" ∧
    (schedStep 1 1 SchedState.init [0] true).files = [(1, [0])] := by
  refine ⟨rfl, rfl, ?_, rfl, ?_⟩
  · simp [start_session, stop_all, ChunkerState.initial]
  · simp [schedStep, SchedState.init]

/-! Section: chunk encoder (`write_wav_chunk`, audio_capture.rs:265-280) -/

/-- Rust float→int `as` conversion truncates toward zero (it would
saturate out of range, but after clamping the value is always in
range). -/
def ratTruncToward0 (x : ℚ) : ℤ :=
  if 0 ≤ x then ⌊x⌋ else ⌈x⌉

/-- The per-sample conversion
`(sample.max(-1.0).min(1.0) * i16::MAX as f32) as i16`
(audio_capture.rs:275): clamp to `[-1, 1]`, scale by `i16::MAX = 32767`,
truncate. -/
def encodeSample (x : Sample) : ℤ :=
  ratTruncToward0 (min (max x (-1)) 1 * 32767)

/-- The WAV file `write_wav_chunk` produces: the `hound::WavSpec` fields
it hardcodes and the converted samples. -/
structure WavChunk where
  channels : Nat
  sample_rate : Nat
  bits_per_sample : Nat
  samples : List ℤ
deriving Repr, DecidableEq

/-- Model of `write_wav_chunk` (audio_capture.rs:265-280). -/
def write_wav_chunk (sampleRate : Nat) (data : List Sample) : WavChunk :=
  { channels := 1, sample_rate := sampleRate, bits_per_sample := 16,
    samples := data.map encodeSample }

theorem clamp_mem_Icc (x : ℚ) :
    -1 ≤ min (max x (-1)) 1 ∧ min (max x (-1)) 1 ≤ 1 :=
  ⟨le_min (le_max_right x (-1)) (by norm_num), min_le_right _ 1⟩

theorem ratTruncToward0_bounds (y : ℚ) (hlo : -32767 ≤ y) (hhi : y ≤ 32767) :
    -32767 ≤ ratTruncToward0 y ∧ ratTruncToward0 y ≤ 32767 := by
  unfold ratTruncToward0
  by_cases h : 0 ≤ y
  · rw [if_pos h]
    have hf : (⌊y⌋ : ℚ) ≤ 32767 := le_trans (Int.floor_le y) hhi
    exact ⟨Int.le_floor.mpr (by exact_mod_cast hlo), by exact_mod_cast hf⟩
  · rw [if_neg h]
    have hc : (-32767 : ℚ) ≤ (⌈y⌉ : ℚ) := le_trans hlo (Int.le_ceil y)
    exact ⟨by exact_mod_cast hc, Int.ceil_le.mpr (by exact_mod_cast hhi)⟩

/-- C7 — The chunk encoder writes single-channel 16-bit PCM; each sample is
clamped to `[-1, 1]` then scaled by `i16::MAX`; inputs above `1` encode
exactly like `1` (to `32767`), inputs below `-1` exactly like `-1`
(to `-32767`), and every encoded value lies in `[-32767, 32767]` — inside
the int16 range, never wrapped. -/
theorem encoder_clamps (sampleRate : Nat) (data : List Sample) (x : Sample) :
    (write_wav_chunk sampleRate data).channels = 1 ∧
    (write_wav_chunk sampleRate data).bits_per_sample = 16 ∧
    (write_wav_chunk sampleRate data).samples = data.map encodeSample ∧
    (1 < x → encodeSample x = encodeSample 1) ∧
    (x < -1 → encodeSample x = encodeSample (-1)) ∧
    encodeSample 1 = 32767 ∧
    encodeSample (-1) = -32767 ∧
    -32767 ≤ encodeSample x ∧ encodeSample x ≤ 32767 := by
  have h1 : encodeSample 1 = 32767 := by
    have hc : min (max (1 : ℚ) (-1)) 1 = 1 := by norm_num
    rw [encodeSample, hc]
    norm_num [ratTruncToward0]
  have hm1 : encodeSample (-1) = -32767 := by
    have hc : min (max (-1 : ℚ) (-1)) 1 = -1 := by norm_num
    rw [encodeSample, hc]
    norm_num [ratTruncToward0]
    rw [show ((-32767 : ℚ)) = ((-32767 : ℤ) : ℚ) by norm_num]
    exact_mod_cast Int.ceil_intCast (-32767 : ℤ)
  refine ⟨rfl, rfl, rfl, ?_, ?_, h1, hm1, ?_⟩
  · intro hx
    have hc : min (max x (-1)) 1 = 1 := by
      rw [max_eq_left (by linarith : (-1 : ℚ) ≤ x),
        min_eq_right (le_of_lt hx)]
    have hc1 : min (max (1 : ℚ) (-1)) 1 = 1 := by norm_num
    rw [encodeSample, hc, encodeSample, hc1]
  · intro hx
    have hc : min (max x (-1)) 1 = -1 := by
      rw [max_eq_right (le_of_lt hx), min_eq_left (by norm_num : (-1 : ℚ) ≤ 1)]
    have hcm : min (max (-1 : ℚ) (-1)) 1 = -1 := by norm_num
    rw [encodeSample, hc, encodeSample, hcm]
  · obtain ⟨hlo, hhi⟩ := clamp_mem_Icc x
    have hy1 : -32767 ≤ min (max x (-1)) 1 * 32767 := by nlinarith
    have hy2 : min (max x (-1)) 1 * 32767 ≤ 32767 := by nlinarith
    exact ratTruncToward0_bounds _ hy1 hy2

/-- Witness for C7 at concrete inputs: the out-of-range samples `2` and
`-3` encode to the encodings of the bounds. -/
theorem encoder_clamps_witness :
    encodeSample 2 = 32767 ∧ encodeSample (-3) = -32767 := by
  have h2 := encoder_clamps 16000 [] 2
  have h3 := encoder_clamps 16000 [] (-3)
  exact ⟨(h2.2.2.2.1 (by norm_num)).trans h2.2.2.2.2.2.1,
    (h3.2.2.2.2.1 (by norm_num)).trans h3.2.2.2.2.2.2.1⟩

/-! Section: finalizer (`concat_wavs_in_dir`, coordinator.rs:109-133)

The chunk files of one session directory, already sorted in index order
(the code sorts the zero-padded `chunk_*.wav` names lexicographically),
are modelled as a list of decoded WAV files: a `hound::WavSpec` triple and
the sample payload. -/

structure WavSpecM where
  channels : Nat
  sample_rate : Nat
  bits_per_sample : Nat
deriving Repr, DecidableEq

structure WavData where
  spec : WavSpecM
  samples : List ℤ
deriving Repr, DecidableEq

/-- Model of `reader.samples::<i16>()` with `?` propagation (coordinator.rs:126):
hound widens narrower samples into `i16` but rejects sources wider than
16 bits per sample. -/
def readSamplesI16 (c : WavData) : Except String (List ℤ) :=
  if c.spec.bits_per_sample ≤ 16 then Except.ok c.samples
  else Except.error "too wide"

def readAllI16 : List WavData → Except String (List ℤ)
  | [] => Except.ok []
  | c :: rest =>
    match readSamplesI16 c with
    | Except.ok s =>
      match readAllI16 rest with
      | Except.ok t => Except.ok (s ++ t)
      | Except.error e => Except.error e
    | Except.error e => Except.error e

/-- Model of `concat_wavs_in_dir` (coordinator.rs:109-133).  Per the code: error
`"no chunks"` when the filtered file list is empty; otherwise record the
FIRST chunk's spec (`if spec.is_none() \x7b spec = Some(rspec); \x7d` —
later specs are never compared), read every chunk's samples as `i16`, and
write them all into one output file carrying that first spec. -/
def concat_wavs_in_dir (chunks : List WavData) : Except String WavData :=
  match chunks with
  | [] => Except.error "no chunks"
  | first :: _ =>
    match readAllI16 chunks with
    | Except.ok allSamples =>
        Except.ok { spec := first.spec, samples := allSamples }
    | Except.error e => Except.error e

/-- C9 — Finalize on a session with zero completed chunks fails with the
explicit `"no chunks"` error and produces no output (the error is returned
before any output file is created, so the directory is untouched). -/
theorem finalize_empty_session :
    concat_wavs_in_dir [] = Except.error "no chunks" := rfl

/-- C4 — evaluation at the failing input.  Two 16-bit mono chunks that
disagree on sample rate (48000 Hz vs 16000 Hz) are concatenated without
any error: the output silently adopts the first chunk's spec.  The code
never compares chunk specs (`// Read all, assume same spec as chunks`),
contradicting the claim that finalize verifies the shared sample format
and fails fast on any disagreement. -/
theorem finalize_no_format_check :
    concat_wavs_in_dir
      [⟨⟨1, 48000, 16⟩, [5]⟩, ⟨⟨1, 16000, 16⟩, [7]⟩] =
    Except.ok ⟨⟨1, 48000, 16⟩, [5, 7]⟩ := rfl

end AudioEngine
